import Mathlib

/-!
Verification of the ANS attendance parser (`src/parse.py`).

The development shallowly embeds the four core functions of the source —
`getYear`, `getAttendance`, `totalAttendance`, `generateChordDiagram` —
together with the percentage normalization performed in `__main__`
(lines 292-295).  Machine values are modelled as follows:

* numpy `int64` member ids become `Int`;
* a pandas `DataFrame` of booleans (member rows, meeting columns) becomes
  the structure `Table` below: a row-label list, a column-label list, and
  a boolean cell function;
* Python `dict`s keyed by strings become association lists
  `List (String × List Int)` (dict keys are unique; lemmas that need this
  take a `Nodup` hypothesis on the key list);
* raised Python exceptions become `Except PyError`; numpy float division
  (which never raises, but yields inf/NaN on a zero denominator) becomes
  `Option ℚ`, with `none` standing for the defined-value-free outcome.
-/

/-- Errors raised by the embedded code.  Each constructor records one
`raise` site (or implicit raising operation) of `src/parse.py`. -/
inductive PyError where
  /-- `KeyError(f'No member list for {year}')`, parse.py line 113. -/
  | keyErrorNoMember (year : String)
  /-- `KeyError(f'No meetings listed for {year}')`, parse.py line 115. -/
  | keyErrorNoMeetings (year : String)
  /-- `KeyError(key + ' cannot be searched and removed simultaneously')`,
  parse.py line 172. -/
  | keyErrorConflict (key : String)
  /-- pandas `KeyError` from `attendance[key]` when `key` is not a column
  of the frame (parse.py lines 173, 177, 199, 204). -/
  | keyErrorColumn (key : String)
  /-- `ValueError: The truth value of a Series is ambiguous`, raised by
  `not attendance[key]` (parse.py line 177) whenever the frame does not
  have exactly one row. -/
  | valueErrorTruth
  /-- pandas `KeyError` from `attendance[mask]` when `mask` is still the
  Python scalar `True` (no required meeting was given): a scalar subscript
  is a column lookup, and no column is labelled by a Python bool. -/
  | keyErrorScalarIndex
  deriving DecidableEq

/-- The space separator/character used by the source's string handling. -/
def sSpace : String := " "

/-- The space character, used by `' ' in meeting` (parse.py line 188). -/
def cSpace : Char := ' '

/-- Python's `y in key` substring test on lists of characters:
true iff `pat` occurs contiguously inside `hay`. -/
def containsSub (hay pat : List Char) : Bool :=
  match hay with
  | [] => pat.isEmpty
  | _ :: t => pat.isPrefixOf hay || containsSub t pat

/-- Python's `y in key` substring test on strings (parse.py lines 106, 109). -/
def substr (y key : String) : Bool :=
  containsSub key.toList y.toList

/-- Embedding of `getYear` (parse.py lines 75-116).  The `str(year)`
coercion of line 100 is left outside the model: `year` is already a
string.  The first loop repeatedly overwrites `member_list` with the
value of every key containing `year` (sentinel `-1` becomes `none`); the
second loop collects every matching meeting in key order. -/
def getYear (year : String) (total_members_list total_meetings_list : List (String × List Int)) :
    Except PyError (List Int × List (String × List Int)) :=
  let member_list : Option (List Int) :=
    total_members_list.foldl (fun acc p => if substr year p.1 then some p.2 else acc) none
  let meeting_list : List (String × List Int) :=
    total_meetings_list.foldl (fun acc p => if substr year p.1 then acc ++ [p] else acc) []
  match member_list with
  | none => Except.error (PyError.keyErrorNoMember year)
  | some ml =>
    if meeting_list.isEmpty then Except.error (PyError.keyErrorNoMeetings year)
    else Except.ok (ml, meeting_list)

/-- A boolean attendance frame: the pandas `DataFrame` produced by
`getAttendance`.  `index` is the row-label list (member ids, in input
order, possibly with duplicates), `cols` the column-label list (meeting
names), and `cell m k` the boolean stored at row label `m`, column `k`. -/
structure Table where
  index : List Int
  cols : List String
  cell : Int → String → Bool

/-- One iteration of the inner loop of `getAttendance` (parse.py lines
137-139): if `member` occurs in the meeting's id array, set the cell at
`(member, key)` to `True`, otherwise leave the frame unchanged. -/
def setCell (member : Int) (acc : Int → String → Bool) (kv : String × List Int) :
    Int → String → Bool :=
  if member ∈ kv.2 then
    fun m k => if m = member ∧ k = kv.1 then true else acc m k
  else acc

/-- Embedding of `getAttendance` (parse.py lines 118-140): start from the
all-`False` frame (lines 133-134) and run the nested loops of lines
136-139, which only ever set cells to `True`. -/
def getAttendance (member_ids : List Int) (meetings : List (String × List Int)) : Table :=
  let start : Int → String → Bool := fun _ _ => false
  let filled : Int → String → Bool :=
    member_ids.foldl (fun acc member => meetings.foldl (setCell member) acc) start
  { index := member_ids, cols := meetings.map Prod.fst, cell := filled }

/-- pandas `attendance[key]` for a string `key`: the boolean column over
the row index, or a `KeyError` when the label is not a column. -/
def column (t : Table) (key : String) : Except PyError (List Bool) :=
  if key ∈ t.cols then Except.ok (t.index.map (fun m => t.cell m key))
  else Except.error (PyError.keyErrorColumn key)

/-- The value of the Python variable `mask` in `totalAttendance`: it
starts as the scalar `True` (line 169) and becomes a boolean Series as
soon as it is `&`-ed with a column. -/
inductive Mask where
  | scalar (b : Bool)
  | series (m : List Bool)

/-- `mask & attendance[key]` (parse.py line 173): a scalar broadcasts
over the column, a Series combines elementwise (same row order). -/
def maskAndCol (mask : Mask) (col : List Bool) : Mask :=
  match mask with
  | Mask.scalar b => Mask.series (col.map (fun c => b && c))
  | Mask.series m => Mask.series (List.zipWith (fun a c => a && c) m col)

/-- `mask & b` for a Python scalar bool `b` (the value of
`not attendance[key]` on a one-row frame, parse.py line 177). -/
def maskAndScalar (mask : Mask) (b : Bool) : Mask :=
  match mask with
  | Mask.scalar a => Mask.scalar (a && b)
  | Mask.series m => Mask.series (m.map (fun a => a && b))

/-- Python's `not series` (parse.py line 177): `bool()` of a pandas
Series is its single element when the length is exactly 1, and raises
`ValueError: The truth value of a Series is ambiguous` otherwise; `not`
then negates the scalar. -/
def notSeries (col : List Bool) : Except PyError Bool :=
  match col with
  | [b] => Except.ok (!b)
  | _ => Except.error PyError.valueErrorTruth

/-- The first loop of `totalAttendance` (parse.py lines 170-173): for
each searched key, first the conflict check `if exclude and key in
exclude` (line 171), then `mask = mask & attendance[key]` (line 173). -/
def requiredFold (t : Table) (exclude : List String) :
    List String → Mask → Except PyError Mask
  | [], mask => Except.ok mask
  | key :: rest, mask =>
    if exclude ≠ [] ∧ key ∈ exclude then Except.error (PyError.keyErrorConflict key)
    else
      match column t key with
      | Except.error e => Except.error e
      | Except.ok c => requiredFold t exclude rest (maskAndCol mask c)

/-- The second loop of `totalAttendance` (parse.py lines 176-177):
`mask = mask & (not attendance[key])` for each excluded key. -/
def excludeFold (t : Table) : List String → Mask → Except PyError Mask
  | [], mask => Except.ok mask
  | key :: rest, mask =>
    match column t key with
    | Except.error e => Except.error e
    | Except.ok c =>
      match notSeries c with
      | Except.error e => Except.error e
      | Except.ok nb => excludeFold t rest (maskAndScalar mask nb)

/-- `result = attendance[mask]` (parse.py line 179): a boolean Series
selects the rows at which it is true; a scalar subscript is a column
lookup by a non-string label and raises `KeyError`. -/
def applyMask (t : Table) : Mask → Except PyError (List Int)
  | Mask.scalar _ => Except.error PyError.keyErrorScalarIndex
  | Mask.series m =>
    Except.ok ((t.index.zip m).filterMap (fun p => if p.2 then some p.1 else none))

/-- Embedding of `totalAttendance` (parse.py lines 142-180).  The Python
default `exclude = None` and an empty list are both falsy and are both
modelled by `[]`.  Returns the selected row labels and their count
(`result.shape[0]`). -/
def totalAttendance (t : Table) (meetings : List String) (exclude : List String) :
    Except PyError (List Int × Nat) :=
  match requiredFold t exclude meetings (Mask.scalar true) with
  | Except.error e => Except.error e
  | Except.ok mask1 =>
    match (if exclude ≠ [] then excludeFold t exclude mask1 else Except.ok mask1) with
    | Except.error e => Except.error e
    | Except.ok mask2 =>
      match applyMask t mask2 with
      | Except.error e => Except.error e
      | Except.ok result => Except.ok (result, result.length)

/-- Characters strictly after the first occurrence of `c` (empty when
`c` does not occur). -/
def afterChar (c : Char) : List Char → List Char
  | [] => []
  | x :: t => if x = c then t else afterChar c t

/-- Python's `meeting.split(' ', 1)[1]`: everything after the first
space.  (Only applied, as in the source, to strings containing a
space.) -/
def afterFirstSpace (s : String) : String :=
  String.mk (afterChar cSpace s.data)

/-- Python's `' ' in meeting` (parse.py line 188): character membership. -/
def strContains (s : String) (c : Char) : Bool :=
  s.data.contains c

/-- The list comprehension of parse.py line 188:
`[meeting.split(' ', 1)[1] for meeting in selected_meetings if ' ' in meeting]`. -/
def meetingsNames (selected_meetings : List String) : List String :=
  (selected_meetings.filter (fun m => strContains m cSpace)).map afterFirstSpace

/-- The f-string `f"{year} {meeting_i}"` of parse.py lines 196-197. -/
def colLabel (year name : String) : String :=
  year ++ sSpace ++ name

/-- `(attendance[key]).sum()` on a boolean column (parse.py line 199):
the number of `True` cells down the rows. -/
def countTrue (t : Table) (key : String) : Nat :=
  (t.index.map (fun m => t.cell m key)).count true

/-- `(attendance[k1] & attendance[k2]).sum()` (parse.py line 204): the
number of rows at which both columns are `True`. -/
def countBoth (t : Table) (k1 k2 : String) : Nat :=
  (t.index.map (fun m => t.cell m k1 && t.cell m k2)).count true

/-- The body of the doubly-nested loop of parse.py lines 194-207, as the
value stored at position `(i, j)` of `overlap_matrix + np.diag(overlap_diag)`
(line 239): the diagonal holds the column's `True` count; an off-diagonal
pair holds the co-attendance count when both columns exist and keeps its
`np.zeros` initial value `0` when the pair was skipped with a warning
(lines 203-207). -/
def overlapEntry (t : Table) (year : String) (names : List String) (i j : Nat) : Nat :=
  if i = j then countTrue t (colLabel year (names.getD i ""))
  else
    if colLabel year (names.getD i "") ∈ t.cols ∧ colLabel year (names.getD j "") ∈ t.cols then
      countBoth t (colLabel year (names.getD i "")) (colLabel year (names.getD j ""))
    else 0

/-- Embedding of the matrix computation of `generateChordDiagram`
(parse.py lines 182-239; the holoviews rendering and the HTML file of
lines 210-238 are external I/O and are not modelled).  The diagonal
assignment `overlap_diag[i] = (attendance[column_i]).sum()` (line 199)
has no existence check, so the row-major loop aborts with a `KeyError`
at the diagonal of the first derived column missing from the frame
(`find?` returns exactly that first missing column); when every derived
column exists no pair is ever skipped and the full matrix of
`overlapEntry` values is returned. -/
def generateChordDiagram (t : Table) (selected_meetings : List String) (year : String) :
    Except PyError (List (List Nat)) :=
  match (meetingsNames selected_meetings).find? (fun nm => decide (colLabel year nm ∉ t.cols)) with
  | some nm => Except.error (PyError.keyErrorColumn (colLabel year nm))
  | none =>
    Except.ok ((List.range (meetingsNames selected_meetings).length).map (fun i =>
      (List.range (meetingsNames selected_meetings).length).map (fun j =>
        overlapEntry t year (meetingsNames selected_meetings) i j)))

/-- One step of the normalization loop of `__main__` (parse.py lines
293-295): divide row `i` by its diagonal entry and scale to percent.
numpy float division never raises, but a zero denominator yields inf
(`x / 0`) or NaN (`0 / 0`) with a runtime warning — no defined
percentage; that outcome is modelled by `none`. -/
def normalizeRow (row : List Nat) (d : Nat) : Option (List ℚ) :=
  if d = 0 then none else some (row.map (fun x : Nat => (x : ℚ) / (d : ℚ) * 100))

/-- The loop `for i in range(len(matrix)): matrix[i] /= matrix[i,i]`
followed by `matrix *= 100` (parse.py lines 293-295), walking the rows
with their diagonal position. -/
def normRows : List (List Nat) → Nat → Option (List (List ℚ))
  | [], _ => some []
  | row :: rest, i =>
    match normalizeRow row (row.getD i 0), normRows rest (i + 1) with
    | some r, some rs => some (r :: rs)
    | _, _ => none

/-- Row-normalized percentage table of an overlap matrix (parse.py lines
293-295). -/
def normalizeMatrix (M : List (List Nat)) : Option (List (List ℚ)) :=
  normRows M 0

/-- Entry access for a matrix stored as a list of rows (out-of-range
positions read as `0`, mirroring the untouched `np.zeros` cells). -/
def Mget (M : List (List Nat)) (i j : Nat) : Nat :=
  (M.getD i []).getD j 0

/-- Entry access for a rational matrix stored as a list of rows. -/
def Qget (N : List (List ℚ)) (i j : Nat) : ℚ :=
  (N.getD i []).getD j 0

instance {ε α : Type} [DecidableEq ε] [DecidableEq α] : DecidableEq (Except ε α) := fun x y =>
  match x, y with
  | Except.ok a, Except.ok b =>
    if h : a = b then isTrue (by rw [h]) else isFalse (fun hc => h (Except.ok.inj hc))
  | Except.error a, Except.error b =>
    if h : a = b then isTrue (by rw [h]) else isFalse (fun hc => h (Except.error.inj hc))
  | Except.ok _, Except.error _ => isFalse (fun hc => Except.noConfusion hc)
  | Except.error _, Except.ok _ => isFalse (fun hc => Except.noConfusion hc)

/-- Proof-support definition (not a source function): the conjunction of
the scalars `not attendance[key]` produced by the exclusion loop of
parse.py lines 176-177, with the error of the first failing step.
`excludeFold` is shown to equal `maskAndScalar` by this value. -/
def excludeScalar (t : Table) : List String → Except PyError Bool
  | [] => Except.ok true
  | key :: rest =>
    match column t key with
    | Except.error e => Except.error e
    | Except.ok c =>
      match notSeries c with
      | Except.error e => Except.error e
      | Except.ok nb =>
        match excludeScalar t rest with
        | Except.error e => Except.error e
        | Except.ok s => Except.ok (nb && s)

/-! Concrete inputs used by witnesses and counterexamples.  Meeting keys
follow the source's `"YEAR MEETING_NAME"` convention where the claim
requires it. -/

/-- Meeting label "A". -/
def sA : String := "A"

/-- Meeting label "B". -/
def sB : String := "B"

/-- Meeting label "C". -/
def sC : String := "C"

/-- Meeting label "D". -/
def sD : String := "D"

/-- A label that is not a column of the tables below. -/
def sX : String := "X"

/-- The year token "2024". -/
def s2024 : String := "2024"

/-- A year token matching no stored key. -/
def s205 : String := "205"

/-- Event label "2024 A". -/
def s2024A : String := "2024 A"

/-- Event label "2024 B". -/
def s2024B : String := "2024 B"

/-- A selected meeting containing no space character. -/
def sNoSpace : String := "PLENARY"

/-- Member-roster key for 2023. -/
def s2023M : String := "2023 MEMBERS"

/-- Member-roster key for 2024. -/
def s2024M : String := "2024 MEMBERS"

/-- First of two member-roster keys both containing "2024". -/
def s2024AM : String := "2024 A MEMBERS"

/-- Second of two member-roster keys both containing "2024". -/
def s2024BM : String := "2024 B MEMBERS"

/-- The spec's running scenario: members `[1,2,3]`, events
`{A: [1,2], B: [2,3]}`. -/
def tScenario : Table := getAttendance [1, 2, 3] [(sA, [1, 2]), (sB, [2, 3])]

/-- The spec's running scenario with year-prefixed event labels. -/
def tChord : Table := getAttendance [1, 2, 3] [(s2024A, [1, 2]), (s2024B, [2, 3])]

/-- A table whose only column is "2024 A" (column "2024 B" missing). -/
def tMissing : Table := getAttendance [1] [(s2024A, [1])]

/-- A table where meeting "2024 A" has zero attendees among the roster. -/
def tZero : Table := getAttendance [1] [(s2024A, [2])]

/-- A one-row table (the only shape on which the exclusion loop of
`totalAttendance` does not raise). -/
def tOneRow : Table := getAttendance [5] [(sA, [5]), (sB, [1]), (sC, [5]), (sD, [7])]

/-- A table with the single column "A", used to show a missing required
column pre-empting the conflict check. -/
def tConflictCe : Table := getAttendance [1] [(sA, [1])]

/-- A table with columns "A" and "B", used to witness the conflict
error. -/
def tConflictW : Table := getAttendance [1] [(sA, [1]), (sB, [2])]

/-- A two-member table with the single column "2024 A". -/
def tC10 : Table := getAttendance [1, 2] [(s2024A, [1, 2])]

/-! Fold lemmas for `getYear`. -/

/-- The member loop of `getYear` is the overwrite fold of the matching
entries. -/
theorem foldl_overwrite_filter (f : String × List Int → Bool) :
    ∀ (l : List (String × List Int)) (acc : Option (List Int)),
      l.foldl (fun a p => if f p then some p.2 else a) acc =
        (l.filter f).foldl (fun a p => some p.2) acc := by
  intro l
  induction l with
  | nil => intro acc; rfl
  | cons x t ih =>
    intro acc
    by_cases hx : f x
    · simp only [List.foldl_cons, List.filter_cons, hx, if_true, if_pos]
      exact ih (some x.2)
    · simp only [List.foldl_cons, List.filter_cons, hx, if_false, if_neg,
        Bool.false_eq_true, not_false_iff]
      exact ih acc

/-- The overwrite fold of a list ending in `(k, roster)` yields
`some roster` from any start. -/
theorem foldl_overwrite_last (pre : List (String × List Int)) (k : String) (roster : List Int)
    (acc : Option (List Int)) :
    (pre ++ [(k, roster)]).foldl (fun a p => some p.2) acc = some roster := by
  rw [List.foldl_append]
  rfl

/-- The overwrite fold of a non-empty list is `some` of something. -/
theorem foldl_overwrite_isSome :
    ∀ (l : List (String × List Int)) (acc : Option (List Int)), l ≠ [] →
      ∃ v, l.foldl (fun a p => some p.2) acc = some v := by
  intro l
  induction l with
  | nil => intro acc h; exact absurd rfl h
  | cons x t ih =>
    intro acc _
    by_cases ht : t = []
    · subst ht; exact ⟨x.2, rfl⟩
    · simpa using ih (some x.2) ht

/-- The meeting loop of `getYear` appends the matching entries in order. -/
theorem foldl_append_filter (f : String × List Int → Bool) :
    ∀ (l : List (String × List Int)) (acc : List (String × List Int)),
      l.foldl (fun a p => if f p then a ++ [p] else a) acc = acc ++ l.filter f := by
  intro l
  induction l with
  | nil => intro acc; simp
  | cons x t ih =>
    intro acc
    by_cases hx : f x
    · simp only [List.foldl_cons, List.filter_cons, hx, if_true, if_pos]
      rw [ih (acc ++ [x]), List.append_assoc]
      rfl
    · simp only [List.foldl_cons, List.filter_cons, hx, if_false, if_neg,
        Bool.false_eq_true, not_false_iff]
      exact ih acc

/-- C7: `getYear` fails exactly when zero member-roster keys contain the
year token as a substring or zero meeting keys contain it, every failure
is one of the two `KeyError`s of parse.py lines 113 and 115, and when
exactly one member-roster key matches (and some meeting does), the
matching roster is returned together with every matching meeting. -/
theorem getYear_spec (y : String) (members meetings : List (String × List Int)) :
    ((∃ e, getYear y members meetings = Except.error e) ↔
      (members.filter (fun p => substr y p.1) = [] ∨
        meetings.filter (fun p => substr y p.1) = [])) ∧
    (∀ e, getYear y members meetings = Except.error e →
      e = PyError.keyErrorNoMember y ∨ e = PyError.keyErrorNoMeetings y) ∧
    (∀ k roster, members.filter (fun p => substr y p.1) = [(k, roster)] →
      meetings.filter (fun p => substr y p.1) ≠ [] →
      getYear y members meetings =
        Except.ok (roster, meetings.filter (fun p => substr y p.1))) := by
  have hmem : members.foldl (fun a p => if substr y p.1 then some p.2 else a) none =
      (members.filter (fun p => substr y p.1)).foldl (fun a p => some p.2) none :=
    foldl_overwrite_filter _ members none
  have hmeet : meetings.foldl (fun a p => if substr y p.1 then a ++ [p] else a) [] =
      meetings.filter (fun p => substr y p.1) :=
    foldl_append_filter _ meetings []
  refine ⟨?_, ?_, ?_⟩
  · constructor
    · rintro ⟨e, he⟩
      by_cases hM : members.filter (fun p => substr y p.1) = []
      · exact Or.inl hM
      · right
        obtain ⟨v, hv⟩ := foldl_overwrite_isSome _ none hM
        rw [getYear] at he
        rw [hmem, hv, hmeet] at he
        by_cases hE : meetings.filter (fun p => substr y p.1) = []
        · exact hE
        · simp only [List.isEmpty_eq_true, hE, if_false, if_neg, not_false_iff] at he
          exact absurd he (by simp)
    · intro h
      rcases h with hM | hE
      · refine ⟨PyError.keyErrorNoMember y, ?_⟩
        rw [getYear, hmem, hM]
        rfl
      · by_cases hM : members.filter (fun p => substr y p.1) = []
        · refine ⟨PyError.keyErrorNoMember y, ?_⟩
          rw [getYear, hmem, hM]
          rfl
        · obtain ⟨v, hv⟩ := foldl_overwrite_isSome _ none hM
          refine ⟨PyError.keyErrorNoMeetings y, ?_⟩
          rw [getYear, hmem, hv, hmeet, hE]
          rfl
  · intro e he
    by_cases hM : members.filter (fun p => substr y p.1) = []
    · have hg : getYear y members meetings = Except.error (PyError.keyErrorNoMember y) := by
        rw [getYear, hmem, hM]
        rfl
      rw [hg] at he
      exact Or.inl (Except.error.inj he).symm
    · obtain ⟨v, hv⟩ := foldl_overwrite_isSome _ none hM
      by_cases hE : meetings.filter (fun p => substr y p.1) = []
      · have hg : getYear y members meetings =
            Except.error (PyError.keyErrorNoMeetings y) := by
          rw [getYear, hmem, hv, hmeet, hE]
          rfl
        rw [hg] at he
        exact Or.inr (Except.error.inj he).symm
      · have hg : getYear y members meetings =
            Except.ok (v, meetings.filter (fun p => substr y p.1)) := by
          rw [getYear, hmem, hv, hmeet]
          simp [hE]
        rw [hg] at he
        exact absurd he (by simp)
  · intro k roster hone hE
    rw [getYear, hmem, hone, hmeet]
    have : ([((k, roster) : String × List Int)]).foldl
        (fun (a : Option (List Int)) p => some p.2) none = some roster := rfl
    rw [this]
    simp only [List.isEmpty_eq_true, hE, if_false, if_neg, not_false_iff]

/-- C7 witness: the spec's scenario.  Member-roster keys
`{"2023 MEMBERS", "2024 MEMBERS"}`: year "2024" matches exactly one key
and returns the 2024 roster with all matching meetings; year "205"
matches none and fails. -/
theorem getYear_spec_witness :
    ([(s2023M, [10]), (s2024M, [20])].filter (fun p => substr s2024 p.1) =
      [(s2024M, [20])]) ∧
    ([(s2024A, [20])].filter (fun p => substr s2024 p.1) = [(s2024A, [20])]) ∧
    getYear s2024 [(s2023M, [10]), (s2024M, [20])] [(s2024A, [20])] =
      Except.ok ([20], [(s2024A, [20])].filter (fun p => substr s2024 p.1)) ∧
    (∃ e, getYear s205 [(s2023M, [10]), (s2024M, [20])] [(s2024A, [20])] = Except.error e) := by
  refine ⟨by decide, by decide, ?_, ?_⟩
  · exact (getYear_spec s2024 [(s2023M, [10]), (s2024M, [20])] [(s2024A, [20])]).2.2
      s2024M [20] (by decide) (by decide)
  · exact (getYear_spec s205 [(s2023M, [10]), (s2024M, [20])] [(s2024A, [20])]).1.mpr
      (Or.inl (by decide))

/-- C8 counterexample: with two member-roster keys both containing
"2024", `getYear` does not fail at all — it silently returns the roster
of the last matching key. -/
theorem getYear_multiMatch_no_error :
    (substr s2024 s2024AM = true ∧ substr s2024 s2024BM = true) ∧
    getYear s2024 [(s2024AM, [1]), (s2024BM, [2])] [(s2024A, [1])] =
      Except.ok ([2], [(s2024A, [1])]) ∧
    (∀ e, getYear s2024 [(s2024AM, [1]), (s2024BM, [2])] [(s2024A, [1])] ≠
      Except.error e) := by
  refine ⟨by decide, by decide, ?_⟩
  intro e he
  have h2 : getYear s2024 [(s2024AM, [1]), (s2024BM, [2])] [(s2024A, [1])] =
      Except.ok ([2], [(s2024A, [1])]) := by decide
  rw [h2] at he
  exact Except.noConfusion he

/-- C8 amended: when more than one member-roster key matches the year
token, `getYear` raises nothing and silently returns the roster of the
last matching key (in key order), together with all matching meetings. -/
theorem getYear_lastMatchWins (y : String) (members meetings : List (String × List Int))
    (pre : List (String × List Int)) (k : String) (roster : List Int)
    (hsplit : members.filter (fun p => substr y p.1) = pre ++ [(k, roster)])
    (hmulti : pre ≠ [])
    (hE : meetings.filter (fun p => substr y p.1) ≠ []) :
    getYear y members meetings =
      Except.ok (roster, meetings.filter (fun p => substr y p.1)) := by
  rw [getYear, foldl_overwrite_filter, foldl_append_filter, hsplit,
    foldl_overwrite_last]
  simp [hE]

/-- C8 amended witness: keys "2024 A MEMBERS" and "2024 B MEMBERS" both
match "2024"; the second (last) roster is returned. -/
theorem getYear_lastMatchWins_witness :
    ([(s2024AM, [1]), (s2024BM, [2])].filter (fun p => substr s2024 p.1) =
      [(s2024AM, [1])] ++ [(s2024BM, [2])]) ∧
    ([(s2024A, [1])].filter (fun p => substr s2024 p.1) = [(s2024A, [1])]) ∧
    getYear s2024 [(s2024AM, [1]), (s2024BM, [2])] [(s2024A, [1])] =
      Except.ok ([2], [(s2024A, [1])].filter (fun p => substr s2024 p.1)) := by
  refine ⟨by decide, by decide, ?_⟩
  exact getYear_lastMatchWins s2024 [(s2024AM, [1]), (s2024BM, [2])] [(s2024A, [1])]
    [(s2024AM, [1])] s2024BM [2] (by decide) (by simp) (by decide)

/-! Cell characterization for `getAttendance`. -/

/-- Effect of the inner meeting loop for one `member` on an arbitrary
cell `(m, k)`: the cell becomes true when `m` is this `member` and some
meeting named `k` contains `member`; otherwise it keeps its value. -/
theorem innerFold_cell (member : Int) :
    ∀ (ms : List (String × List Int)) (acc : Int → String → Bool) (m : Int) (k : String),
      (ms.foldl (setCell member) acc) m k =
        (acc m k ||
          (decide (m = member) && ms.any (fun kv => kv.1 == k && decide (member ∈ kv.2)))) := by
  intro ms
  induction ms with
  | nil => intro acc m k; simp
  | cons kv t ih =>
    intro acc m k
    simp only [List.foldl_cons, List.any_cons]
    rw [ih]
    by_cases hmem : member ∈ kv.2
    · by_cases hm : m = member
      · subst hm
        by_cases hk : k = kv.1
        · subst hk
          simp [setCell, hmem]
        · have hbk : (kv.1 == k) = false := by
            simp [beq_iff_eq]
            intro h
            exact hk h.symm
          simp [setCell, hmem, hbk, hk]
      · have hcell : setCell member acc kv m k = acc m k := by
          simp only [setCell, if_pos hmem]
          rw [if_neg]
          intro h
          exact hm h.1
        rw [hcell]
        simp [hm]
    · have hcell : setCell member acc kv m k = acc m k := by
        simp [setCell, hmem]
      rw [hcell]
      simp [hmem]

/-- Closed form of the cell function produced by `getAttendance`. -/
theorem getAttendance_cell_eval (member_ids : List Int) (meetings : List (String × List Int))
    (m : Int) (k : String) :
    (getAttendance member_ids meetings).cell m k =
      (decide (m ∈ member_ids) &&
        meetings.any (fun kv => kv.1 == k && decide (m ∈ kv.2))) := by
  suffices h : ∀ (mids : List Int) (acc : Int → String → Bool),
      (mids.foldl (fun acc member => meetings.foldl (setCell member) acc) acc) m k =
        (acc m k ||
          (decide (m ∈ mids) && meetings.any (fun kv => kv.1 == k && decide (m ∈ kv.2)))) by
    have := h member_ids (fun _ _ => false)
    simpa [getAttendance] using this
  intro mids
  induction mids with
  | nil => intro acc; simp
  | cons member rest ih =>
    intro acc
    simp only [List.foldl_cons]
    rw [ih, innerFold_cell]
    by_cases hm : m = member
    · subst hm
      simp [List.mem_cons, Bool.or_assoc]
      cases h1 : meetings.any (fun kv => kv.1 == k && decide (m ∈ kv.2)) <;> simp
    · simp [List.mem_cons, hm]
  
/-- Helper: with pairwise distinct keys, an association list relates a
key to a single value. -/
theorem assoc_key_unique :
    ∀ (ms : List (String × List Int)), (ms.map Prod.fst).Nodup →
      ∀ (a : String) (b c : List Int), (a, b) ∈ ms → (a, c) ∈ ms → b = c := by
  intro ms
  induction ms with
  | nil => intro _ a b c hb; simp at hb
  | cons kv t ih =>
    intro hnd a b c hb hc
    have hnd' := hnd
    rw [List.map_cons, List.nodup_cons] at hnd'
    rcases List.mem_cons.mp hb with hb1 | hb1 <;> rcases List.mem_cons.mp hc with hc1 | hc1
    · rw [← hb1] at hc1
      exact (congrArg Prod.snd hc1).symm
    · exfalso
      apply hnd'.1
      rw [← hb1]
      exact List.mem_map.mpr ⟨(a, c), hc1, rfl⟩
    · exfalso
      apply hnd'.1
      rw [← hc1]
      exact List.mem_map.mpr ⟨(a, b), hb1, rfl⟩
    · exact ih hnd'.2 a b c hb1 hc1

/-- C2: in the table built by `getAttendance`, the cell of a member `m`
and an event `e` with id list `ids` is true exactly when `m` appears in
`ids` — a pure membership test, independent of the order of `ids` and
unaffected by duplicates in it or in the member list. -/
theorem getAttendance_cell_correct (member_ids : List Int) (meetings : List (String × List Int))
    (hnd : (meetings.map Prod.fst).Nodup) (m : Int) (hm : m ∈ member_ids)
    (e : String) (ids : List Int) (hkv : (e, ids) ∈ meetings) :
    ((getAttendance member_ids meetings).cell m e = true) ↔ m ∈ ids := by
  rw [getAttendance_cell_eval]
  simp only [hm, decide_eq_true_eq, Bool.true_and, decide_True]
  rw [List.any_eq_true]
  constructor
  · rintro ⟨kv, hkvmem, hp⟩
    rw [Bool.and_eq_true, beq_iff_eq, decide_eq_true_eq] at hp
    obtain ⟨hk, hmemkv⟩ := hp
    have : kv.2 = ids := by
      apply assoc_key_unique meetings hnd e kv.2 ids
      · rw [← hk]
        exact hkvmem
      · exact hkv
    rw [← this]
    exact hmemkv
  · intro h
    exact ⟨(e, ids), hkv, by simp [h]⟩

/-- C2 witness: the spec's scenario table.  Member 2 attended meeting
"A" (2 appears in A's id list); the hypotheses hold concretely. -/
theorem getAttendance_cell_correct_witness :
    (([(sA, [1, 2]), (sB, [2, 3])].map Prod.fst).Nodup ∧ (2 : Int) ∈ [(1 : Int), 2, 3] ∧
      (sA, [(1 : Int), 2]) ∈ [(sA, [1, 2]), (sB, [2, 3])]) ∧
    (((getAttendance [1, 2, 3] [(sA, [1, 2]), (sB, [2, 3])]).cell 2 sA = true) ↔
      (2 : Int) ∈ [(1 : Int), 2]) := by
  refine ⟨⟨by decide, by decide, by decide⟩, ?_⟩
  exact getAttendance_cell_correct [1, 2, 3] [(sA, [1, 2]), (sB, [2, 3])]
    (by decide) 2 (by decide) sA [1, 2] (by decide)

/-! Machinery for `totalAttendance`. -/

/-- `totalAttendance` without the truthiness test on `exclude`: the empty
exclusion loop is a no-op, so the guard can be dropped. -/
theorem totalAttendance_pipeline (t : Table) (R X : List String) :
    totalAttendance t R X =
      match requiredFold t X R (Mask.scalar true) with
      | Except.error e => Except.error e
      | Except.ok mask1 =>
        match excludeFold t X mask1 with
        | Except.error e => Except.error e
        | Except.ok mask2 =>
          match applyMask t mask2 with
          | Except.error e => Except.error e
          | Except.ok result => Except.ok (result, result.length) := by
  by_cases hX : X = []
  · subst hX
    simp [totalAttendance, excludeFold]
  · simp [totalAttendance, hX]

/-- `&`-ing a mask with the scalar `True` changes nothing. -/
theorem maskAndScalar_true (mask : Mask) : maskAndScalar mask true = mask := by
  cases mask with
  | scalar b => simp [maskAndScalar]
  | series m => simp [maskAndScalar]

/-- Two successive scalar conjunctions combine. -/
theorem maskAndScalar_comp (mask : Mask) (a b : Bool) :
    maskAndScalar (maskAndScalar mask a) b = maskAndScalar mask (a && b) := by
  cases mask with
  | scalar x => simp [maskAndScalar, Bool.and_assoc]
  | series m => simp [maskAndScalar, Function.comp_def, Bool.and_assoc]

/-- The exclusion loop equals one scalar conjunction by the combined
scalar of its keys (errors do not depend on the incoming mask). -/
theorem excludeFold_eq (t : Table) :
    ∀ (X : List String) (mask : Mask),
      excludeFold t X mask =
        match excludeScalar t X with
        | Except.error e => Except.error e
        | Except.ok s => Except.ok (maskAndScalar mask s) := by
  intro X
  induction X with
  | nil => intro mask; simp [excludeFold, excludeScalar, maskAndScalar_true]
  | cons k rest ih =>
    intro mask
    cases hc : column t k with
    | error e => simp [excludeFold, excludeScalar, hc]
    | ok c =>
      cases hnb : notSeries c with
      | error e => simp [excludeFold, excludeScalar, hc, hnb]
      | ok nb =>
        simp only [excludeFold, excludeScalar, hc, hnb]
        rw [ih]
        cases hs : excludeScalar t rest with
        | error e => simp [hs]
        | ok s => simp [hs, maskAndScalar_comp]

/-- Appending one key to the exclusion list conjoins its scalar on the
right. -/
theorem excludeScalar_append (t : Table) (L : String) :
    ∀ X : List String,
      excludeScalar t (X ++ [L]) =
        match excludeScalar t X with
        | Except.error e => Except.error e
        | Except.ok s =>
          match column t L with
          | Except.error e => Except.error e
          | Except.ok c =>
            match notSeries c with
            | Except.error e => Except.error e
            | Except.ok nb => Except.ok (s && nb) := by
  intro X
  induction X with
  | nil =>
    cases hc : column t L with
    | error e => simp [excludeScalar, hc]
    | ok c =>
      cases hnb : notSeries c with
      | error e => simp [excludeScalar, hc, hnb]
      | ok nb => simp [excludeScalar, hc, hnb]
  | cons k rest ih =>
    cases hc : column t k with
    | error e => simp [excludeScalar, hc]
    | ok c =>
      cases hnb : notSeries c with
      | error e => simp [excludeScalar, hc, hnb]
      | ok nb =>
        simp only [List.cons_append, excludeScalar, hc, hnb, List.append_eq]
        rw [ih]
        cases hs : excludeScalar t rest with
        | error e => simp [hs]
        | ok s =>
          cases hcL : column t L with
          | error e => simp [hcL]
          | ok cL =>
            cases hnbL : notSeries cL with
            | error e => simp [hnbL]
            | ok nbL => simp [hcL, hnbL, Bool.and_assoc]

/-- `column` on a present label. -/
theorem column_mem (t : Table) (k : String) (h : k ∈ t.cols) :
    column t k = Except.ok (t.index.map (fun m => t.cell m k)) := by
  simp [column, h]

/-- Inversion for `column`. -/
theorem column_ok (t : Table) (k : String) (c : List Bool)
    (h : column t k = Except.ok c) : c = t.index.map (fun m => t.cell m k) := by
  by_cases hmem : k ∈ t.cols
  · rw [column_mem t k hmem] at h
    exact (Except.ok.inj h).symm
  · rw [column, if_neg hmem] at h
    exact absurd h (by simp)

/-- Elementwise conjunction of boolean lists associates. -/
theorem zipWith_and_assoc :
    ∀ (a b c : List Bool),
      List.zipWith (fun x y => x && y) (List.zipWith (fun x y => x && y) a b) c =
        List.zipWith (fun x y => x && y) a (List.zipWith (fun x y => x && y) b c) := by
  intro a
  induction a with
  | nil => intro b c; simp
  | cons x t ih =>
    intro b c
    cases b with
    | nil => simp
    | cons y tb =>
      cases c with
      | nil => simp
      | cons z tc => simp [Bool.and_assoc, ih]

/-- Elementwise conjunction of two maps over the same list is the map of
the pointwise conjunction. -/
theorem zipWith_same_map {α : Type} (f g : α → Bool) :
    ∀ l : List α,
      List.zipWith (fun x y => x && y) (l.map f) (l.map g) =
        l.map (fun x => f x && g x) := by
  intro l
  induction l with
  | nil => simp
  | cons x t ih => simp [ih]

/-- Conjunction with an all-true list of the same length is the
identity. -/
theorem zipWith_and_trues {α : Type} :
    ∀ (a : List Bool) (l : List α), a.length = l.length →
      List.zipWith (fun x y => x && y) a (l.map (fun _ => true)) = a := by
  intro a
  induction a with
  | nil => intro l h; simp
  | cons x t ih =>
    intro l h
    cases l with
    | nil => simp at h
    | cons y tl =>
      simp only [List.map_cons, List.zipWith_cons_cons, Bool.and_true]
      rw [ih tl (by simpa using h)]

/-- Closed form of the search loop from a Series mask: on success the
mask is the elementwise conjunction with the columnwise all-test. -/
theorem requiredFold_ok_series (t : Table) (X : List String) :
    ∀ (R : List String) (a : List Bool) (mk : Mask),
      a.length = t.index.length →
      requiredFold t X R (Mask.series a) = Except.ok mk →
      mk = Mask.series (List.zipWith (fun x y => x && y) a
        (t.index.map (fun m => R.all (fun c => t.cell m c)))) := by
  intro R
  induction R with
  | nil =>
    intro a mk hlen h
    simp only [requiredFold] at h
    have ha : mk = Mask.series a := (Except.ok.inj h).symm
    rw [ha]
    congr 1
    have : (fun m => List.all [] (fun c => t.cell m c)) = (fun _ : Int => true) := by
      funext m; simp
    rw [this, zipWith_and_trues a t.index (by simpa using hlen)]
  | cons k rest ih =>
    intro a mk hlen h
    simp only [requiredFold] at h
    by_cases hk : X ≠ [] ∧ k ∈ X
    · rw [if_pos hk] at h
      exact absurd h (by simp)
    · rw [if_neg hk] at h
      cases hc : column t k with
      | error e =>
        rw [hc] at h
        exact absurd h (by simp)
      | ok c =>
        have hcval := column_ok t k c hc
        subst hcval
        simp only [hc, maskAndCol] at h
        have hlen2 : (List.zipWith (fun x y => x && y) a
            (t.index.map (fun m => t.cell m k))).length = t.index.length := by
          simp [hlen]
        have hmk := ih _ mk hlen2 h
        rw [hmk, zipWith_and_assoc, zipWith_same_map]
        simp [List.all_cons]

/-- Closed form of the search loop from the initial scalar `True` mask:
for a non-empty list of searched keys, success produces the row-wise
all-columns-true Series. -/
theorem requiredFold_scalar_ok (t : Table) (X : List String) (R : List String) (mk : Mask)
    (hne : R ≠ []) (h : requiredFold t X R (Mask.scalar true) = Except.ok mk) :
    mk = Mask.series (t.index.map (fun m => R.all (fun c => t.cell m c))) := by
  cases R with
  | nil => exact absurd rfl hne
  | cons k rest =>
    simp only [requiredFold] at h
    by_cases hk : X ≠ [] ∧ k ∈ X
    · rw [if_pos hk] at h
      exact absurd h (by simp)
    · rw [if_neg hk] at h
      cases hc : column t k with
      | error e =>
        rw [hc] at h
        exact absurd h (by simp)
      | ok c =>
        have hcval := column_ok t k c hc
        subst hcval
        simp only [hc] at h
        have hsc : maskAndCol (Mask.scalar true) (t.index.map (fun m => t.cell m k)) =
            Mask.series (t.index.map (fun m => t.cell m k)) := by
          simp [maskAndCol]
        rw [hsc] at h
        have hmk := requiredFold_ok_series t X rest (t.index.map (fun m => t.cell m k)) mk
          (by simp) h
        rw [hmk, zipWith_same_map]
        simp [List.all_cons]

/-- Length of the row selection by a mask that is a map over the index:
it is the number of index entries satisfying the predicate. -/
theorem zip_map_filterMap_length {α : Type} (g : α → Bool) :
    ∀ xs : List α,
      ((xs.zip (xs.map g)).filterMap (fun p => if p.2 then some p.1 else none)).length =
        xs.countP g := by
  intro xs
  induction xs with
  | nil => simp
  | cons x t ih =>
    simp only [List.map_cons, List.zip_cons_cons, List.filterMap_cons, List.countP_cons]
    cases hx : g x with
    | false => simp [ih]
    | true => simp [ih]

/-- Success characterization of `totalAttendance`: the searched list is
non-empty, the exclusion scalars all evaluate, and the returned count is
the number of index entries passing all searched columns and the
combined exclusion scalar. -/
theorem totalAttendance_ok_count (t : Table) (R X : List String) (r : List Int) (n : Nat)
    (h : totalAttendance t R X = Except.ok (r, n)) :
    R ≠ [] ∧ ∃ s : Bool, excludeScalar t X = Except.ok s ∧
      n = t.index.countP (fun m => R.all (fun c => t.cell m c) && s) := by
  rw [totalAttendance_pipeline] at h
  cases hreq : requiredFold t X R (Mask.scalar true) with
  | error e =>
    rw [hreq] at h
    exact absurd h (by simp)
  | ok m1 =>
    simp only [hreq] at h
    rw [excludeFold_eq] at h
    cases hs : excludeScalar t X with
    | error e =>
      rw [hs] at h
      exact absurd h (by simp)
    | ok s =>
      simp only [hs] at h
      have hRne : R ≠ [] := by
        intro hR
        subst hR
        have hm1 : m1 = Mask.scalar true := by
          simpa [requiredFold] using hreq.symm
        rw [hm1] at h
        simp [maskAndScalar, applyMask] at h
      have hm1 := requiredFold_scalar_ok t X R m1 hRne hreq
      rw [hm1] at h
      simp only [maskAndScalar] at h
      have hmaps : (t.index.map (fun m => R.all (fun c => t.cell m c))).map (fun a => a && s)
          = t.index.map (fun m => R.all (fun c => t.cell m c) && s) := by
        rw [List.map_map]
        rfl
      rw [hmaps] at h
      simp only [applyMask] at h
      refine ⟨hRne, s, rfl, ?_⟩
      have hn : n = ((t.index.zip
          (t.index.map (fun m => R.all (fun c => t.cell m c) && s))).filterMap
            (fun p => if p.2 then some p.1 else none)).length :=
        (congrArg Prod.snd (Except.ok.inj h)).symm
      rw [hn, zip_map_filterMap_length]

/-- C9: on any pair of calls that both succeed, the returned count is
antitone in the searched list and in the excluded list: appending one
meeting to `meetings`, or one meeting to `exclude`, never increases the
count. -/
theorem totalAttendance_antitone (t : Table) (R X : List String) (r1 : List Int) (n1 : Nat)
    (h1 : totalAttendance t R X = Except.ok (r1, n1)) :
    (∀ L r2 n2, totalAttendance t (R ++ [L]) X = Except.ok (r2, n2) → n2 ≤ n1) ∧
    (∀ L r3 n3, totalAttendance t R (X ++ [L]) = Except.ok (r3, n3) → n3 ≤ n1) := by
  obtain ⟨hR, s, hs, hn1⟩ := totalAttendance_ok_count t R X r1 n1 h1
  constructor
  · intro L r2 n2 h2
    obtain ⟨hR2, s2, hs2, hn2⟩ := totalAttendance_ok_count t (R ++ [L]) X r2 n2 h2
    rw [hs] at hs2
    have hss : s2 = s := (Except.ok.inj hs2).symm
    subst hss
    rw [hn1, hn2]
    apply List.countP_mono_left
    intro m _ hm
    rw [Bool.and_eq_true, List.all_append, Bool.and_eq_true] at hm
    rw [Bool.and_eq_true]
    exact ⟨hm.1.1, hm.2⟩
  · intro L r3 n3 h3
    obtain ⟨hR3, s3, hs3, hn3⟩ := totalAttendance_ok_count t R (X ++ [L]) r3 n3 h3
    rw [excludeScalar_append, hs] at hs3
    cases hcL : column t L with
    | error e =>
      rw [hcL] at hs3
      exact absurd hs3 (by simp)
    | ok c =>
      simp only [hcL] at hs3
      cases hnb : notSeries c with
      | error e =>
        rw [hnb] at hs3
        exact absurd hs3 (by simp)
      | ok nb =>
        simp only [hnb] at hs3
        have hss : s3 = (s && nb) := (Except.ok.inj hs3).symm
        subst hss
        rw [hn1, hn3]
        apply List.countP_mono_left
        intro m _ hm
        rw [Bool.and_eq_true, Bool.and_eq_true] at hm
        rw [Bool.and_eq_true]
        exact ⟨hm.1, hm.2.1⟩

/-- C9 witness: on the one-row table, the base query (searched "A",
excluded "B") succeeds with count 1; appending "D" to the searched list
gives count 0 ≤ 1, and appending "C" to the excluded list gives count
0 ≤ 1. -/
theorem totalAttendance_antitone_witness :
    totalAttendance tOneRow [sA] [sB] = Except.ok ([5], 1) ∧
    totalAttendance tOneRow ([sA] ++ [sD]) [sB] = Except.ok ([], 0) ∧
    totalAttendance tOneRow [sA] ([sB] ++ [sC]) = Except.ok ([], 0) ∧
    0 ≤ 1 ∧ 0 ≤ 1 := by
  refine ⟨by decide, by decide, by decide, ?_, ?_⟩
  · exact (totalAttendance_antitone tOneRow [sA] [sB] [5] 1 (by decide)).1
      sD [] 0 (by decide)
  · exact (totalAttendance_antitone tOneRow [sA] [sB] [5] 1 (by decide)).2
      sC [] 0 (by decide)

/-- The search loop raises the conflict `KeyError` at the first searched
key that is also excluded, provided the searched keys before it are
columns of the frame (their columns are `&`-ed into the mask before the
conflict is reached). -/
theorem requiredFold_conflict (t : Table) (exclude : List String) :
    ∀ (meetings : List String) (mask : Mask) (k : String),
      meetings.find? (fun x => decide (x ∈ exclude)) = some k →
      (∀ x ∈ meetings.takeWhile (fun x => !(decide (x ∈ exclude))), x ∈ t.cols) →
      requiredFold t exclude meetings mask =
        Except.error (PyError.keyErrorConflict k) := by
  intro ms
  induction ms with
  | nil =>
    intro mask k h _
    simp at h
  | cons m rest ih =>
    intro mask k hfind hpre
    by_cases hm : decide (m ∈ exclude) = true
    · have hmem : m ∈ exclude := of_decide_eq_true hm
      have hk : k = m := by
        simp only [List.find?, hm] at hfind
        exact (Option.some.inj hfind).symm
      subst hk
      simp only [requiredFold]
      rw [if_pos ⟨List.ne_nil_of_mem hmem, hmem⟩]
    · have hmemf : m ∉ exclude := fun hcon => hm (decide_eq_true hcon)
      have hdm : decide (m ∈ exclude) = false := by
        simpa using hmemf
      have hcol : m ∈ t.cols := by
        apply hpre m
        rw [List.takeWhile_cons]
        simp [hdm]
      have hnc : ¬(exclude ≠ [] ∧ m ∈ exclude) := by
        rintro ⟨-, hmm2⟩
        exact hmemf hmm2
      simp only [requiredFold]
      rw [if_neg hnc, column_mem t m hcol]
      show requiredFold t exclude rest (maskAndCol mask (t.index.map (fun x => t.cell x m))) =
        Except.error (PyError.keyErrorConflict k)
      apply ih
      · simpa only [List.find?, hdm] using hfind
      · intro x hx
        apply hpre x
        have hts : List.takeWhile (fun x => !(decide (x ∈ exclude))) (m :: rest) =
            m :: List.takeWhile (fun x => !(decide (x ∈ exclude))) rest := by
          rw [List.takeWhile_cons]
          simp [hdm]
        rw [hts]
        exact List.mem_cons_of_mem m hx

/-- C4 amended: for a non-empty excluded list sharing a key with the
searched list, `totalAttendance` raises the conflict `KeyError` at the
first shared key — provided every searched key before that one is a
column of the table; those earlier columns are evaluated and `&`-ed into
the mask before the error is raised (the check is per-key, interleaved
with evaluation, though always before the final row filtering). -/
theorem totalAttendance_conflict (t : Table) (meetings exclude : List String) (k : String)
    (hfind : meetings.find? (fun x => decide (x ∈ exclude)) = some k)
    (hpre : ∀ x ∈ meetings.takeWhile (fun x => !(decide (x ∈ exclude))), x ∈ t.cols) :
    totalAttendance t meetings exclude = Except.error (PyError.keyErrorConflict k) := by
  rw [totalAttendance_pipeline,
    requiredFold_conflict t exclude meetings (Mask.scalar true) k hfind hpre]

/-- C4 amended witness: table with columns "A", "B"; searching
`["A", "B"]` while excluding `["B"]` raises the conflict error at "B". -/
theorem totalAttendance_conflict_witness :
    ([sA, sB].find? (fun x => decide (x ∈ [sB])) = some sB) ∧
    (∀ x ∈ [sA, sB].takeWhile (fun x => !(decide (x ∈ [sB]))), x ∈ tConflictW.cols) ∧
    totalAttendance tConflictW [sA, sB] [sB] =
      Except.error (PyError.keyErrorConflict sB) := by
  refine ⟨by decide, by decide, ?_⟩
  exact totalAttendance_conflict tConflictW [sA, sB] [sB] sB (by decide) (by decide)

/-- C4 counterexample: the claim "a shared key always yields
`ConflictError`, before any evaluation over the table" fails: with
searched list `["X", "A"]` and excluded list `["A"]` (non-empty
intersection `{A}`), the evaluation of column "X" — performed before the
conflict check ever sees "A" — raises the missing-column `KeyError`
instead. -/
theorem totalAttendance_conflict_counterexample :
    (sA ∈ ([sX, sA] : List String) ∧ sA ∈ ([sA] : List String)) ∧
    totalAttendance tConflictCe [sX, sA] [sA] =
      Except.error (PyError.keyErrorColumn sX) ∧
    (∀ c, totalAttendance tConflictCe [sX, sA] [sA] ≠
      Except.error (PyError.keyErrorConflict c)) := by
  refine ⟨⟨by decide, by decide⟩, by decide, ?_⟩
  intro c h
  have h2 : totalAttendance tConflictCe [sX, sA] [sA] =
      Except.error (PyError.keyErrorColumn sX) := by decide
  rw [h2] at h
  exact PyError.noConfusion (Except.error.inj h)

/-- C1 (code bug): on the spec's scenario table (three rows), the
documented exclusion query `totalAttendance(table, ["A"], exclude=["B"])`
does not return member 1 with count 1 — the `not attendance[key]` on
line 177 raises `ValueError` for every frame without exactly one row.
The pure-conjunction query of the same scenario works as documented. -/
theorem totalAttendance_excludeCrash :
    totalAttendance tScenario [sA] [sB] = Except.error PyError.valueErrorTruth ∧
    totalAttendance tScenario [sA, sB] [] = Except.ok ([2], 1) := by
  exact ⟨by decide, by decide⟩

/-! Machinery for the overlap matrix. -/

/-- Counting `true` in a mapped boolean list is counting the
predicate. -/
theorem count_true_map {α : Type} (f : α → Bool) :
    ∀ l : List α, (l.map f).count true = l.countP f := by
  intro l
  induction l with
  | nil => simp
  | cons x t ih =>
    cases hx : f x <;> simp [List.count_cons, List.countP_cons, hx, ih]

/-- Co-attendance counting is symmetric in the two columns. -/
theorem countBoth_comm (t : Table) (k1 k2 : String) :
    countBoth t k1 k2 = countBoth t k2 k1 := by
  unfold countBoth
  have hfun : (fun m => t.cell m k1 && t.cell m k2) =
      (fun m => t.cell m k2 && t.cell m k1) := by
    funext m
    exact Bool.and_comm _ _
  rw [hfun]

/-- Co-attendance of two meetings never exceeds the first meeting's
attendance. -/
theorem countBoth_le_countTrue (t : Table) (k1 k2 : String) :
    countBoth t k1 k2 ≤ countTrue t k1 := by
  unfold countBoth countTrue
  rw [count_true_map, count_true_map]
  apply List.countP_mono_left
  intro a _ h
  simp only [Bool.and_eq_true] at h
  exact h.1

/-- Inversion of a successful `generateChordDiagram`: every derived
column is present and the result is the full matrix of `overlapEntry`
values. -/
theorem generateChordDiagram_ok (t : Table) (sel : List String) (year : String)
    (M : List (List Nat)) (h : generateChordDiagram t sel year = Except.ok M) :
    (∀ nm ∈ meetingsNames sel, colLabel year nm ∈ t.cols) ∧
    M = (List.range (meetingsNames sel).length).map (fun i =>
      (List.range (meetingsNames sel).length).map (fun j =>
        overlapEntry t year (meetingsNames sel) i j)) := by
  cases hf : (meetingsNames sel).find? (fun nm => decide (colLabel year nm ∉ t.cols)) with
  | some nm =>
    simp only [generateChordDiagram, hf] at h
    exact absurd h (by simp)
  | none =>
    simp only [generateChordDiagram, hf] at h
    refine ⟨?_, (Except.ok.inj h).symm⟩
    intro nm hnm
    have h2 := List.find?_eq_none.mp hf nm hnm
    simpa using h2

/-- `getD` of a map over `List.range` at an in-bounds position. -/
theorem getD_range_map {β : Type} (f : Nat → β) (n i : Nat) (d : β) (hi : i < n) :
    ((List.range n).map f).getD i d = f i := by
  rw [List.getD_eq_getElem?_getD, List.getElem?_map, List.getElem?_range hi]
  rfl

/-- `getD` past the end of a list is the default. -/
theorem getD_oob {β : Type} (l : List β) (i : Nat) (d : β) (h : l.length ≤ i) :
    l.getD i d = d := by
  rw [List.getD_eq_getElem?_getD, List.getElem?_eq_none h]
  rfl

/-- In-bounds entry of the square matrix built from `List.range`. -/
theorem Mget_matrix (t : Table) (year : String) (names : List String) (i j : Nat)
    (hi : i < names.length) (hj : j < names.length) :
    Mget ((List.range names.length).map (fun i =>
      (List.range names.length).map (fun j => overlapEntry t year names i j))) i j =
      overlapEntry t year names i j := by
  unfold Mget
  rw [getD_range_map _ _ _ _ hi, getD_range_map _ _ _ _ hj]

/-- Out-of-bounds entries of the square matrix read `0`. -/
theorem Mget_matrix_oob (t : Table) (year : String) (names : List String) (i j : Nat)
    (hij : names.length ≤ i ∨ names.length ≤ j) :
    Mget ((List.range names.length).map (fun i =>
      (List.range names.length).map (fun j => overlapEntry t year names i j))) i j = 0 := by
  unfold Mget
  by_cases hi : i < names.length
  · have hj : names.length ≤ j := by
      rcases hij with h | h
      · exact absurd hi (by omega)
      · exact h
    rw [getD_range_map _ _ _ _ hi, getD_oob _ _ _ (by simpa using hj)]
  · rw [getD_oob ((List.range names.length).map (fun i =>
      (List.range names.length).map (fun j => overlapEntry t year names i j))) i []
      (by simpa using Nat.le_of_not_lt hi)]
    rfl

/-- `getD` through a `map` at an in-bounds position. -/
theorem getD_map_in (f : String → String) (l : List String) (i : Nat) (hi : i < l.length) :
    (l.map f).getD i "" = f (l.getD i "") := by
  have hx : l[i]? = some l[i] := List.getElem?_eq_getElem hi
  rw [List.getD_eq_getElem?_getD, List.getElem?_map, hx, List.getD_eq_getElem?_getD, hx]
  rfl

/-- `getD` of an in-bounds position is a member of the list. -/
theorem getD_mem_in (l : List String) (i : Nat) (hi : i < l.length) :
    l.getD i "" ∈ l := by
  have hx : l[i]? = some l[i] := List.getElem?_eq_getElem hi
  rw [List.getD_eq_getElem?_getD, hx]
  exact List.getElem_mem hi

/-- C3: for well-formed event labels (of the source's `"<year> <name>"`
shape, so that the derived column of a label is the label itself) whose
columns are all present in the table, the overlap matrix is returned
with: diagonal `M[i][i]` equal to the `True` count of column
`labels[i]` (a value depending on no other column), off-diagonal
`M[i][j]` equal to the count of rows true in both columns, and full
symmetry `M[i][j] = M[j][i]`. -/
theorem generateChordDiagram_overlapMatrix (t : Table) (labels : List String) (year : String)
    (hform : ∀ l ∈ labels, strContains l cSpace = true ∧ colLabel year (afterFirstSpace l) = l)
    (hcols : ∀ l ∈ labels, l ∈ t.cols) :
    ∃ M, generateChordDiagram t labels year = Except.ok M ∧
      (∀ i, i < labels.length → Mget M i i = countTrue t (labels.getD i "")) ∧
      (∀ i j, i < labels.length → j < labels.length → i ≠ j →
        Mget M i j = countBoth t (labels.getD i "") (labels.getD j "")) ∧
      (∀ i j, Mget M i j = Mget M j i) := by
  have hnames : meetingsNames labels = labels.map afterFirstSpace := by
    unfold meetingsNames
    rw [List.filter_eq_self.mpr]
    intro l hl
    exact (hform l hl).1
  have hlen : (meetingsNames labels).length = labels.length := by
    rw [hnames, List.length_map]
  have hcolD : ∀ i, i < labels.length →
      colLabel year ((meetingsNames labels).getD i "") = labels.getD i "" := by
    intro i hi
    rw [hnames, getD_map_in _ _ _ hi]
    exact (hform _ (getD_mem_in labels i hi)).2
  have hmemD : ∀ i, i < labels.length → labels.getD i "" ∈ t.cols := by
    intro i hi
    exact hcols _ (getD_mem_in labels i hi)
  have hfind : (meetingsNames labels).find?
      (fun nm => decide (colLabel year nm ∉ t.cols)) = none := by
    rw [List.find?_eq_none]
    intro nm hnm
    rw [hnames] at hnm
    obtain ⟨l, hl, hleq⟩ := List.mem_map.mp hnm
    have : colLabel year nm ∈ t.cols := by
      rw [← hleq, (hform l hl).2]
      exact hcols l hl
    simp [this]
  refine ⟨(List.range (meetingsNames labels).length).map (fun i =>
    (List.range (meetingsNames labels).length).map (fun j =>
      overlapEntry t year (meetingsNames labels) i j)), ?_, ?_, ?_, ?_⟩
  · simp only [generateChordDiagram, hfind]
  · intro i hi
    rw [Mget_matrix t year _ i i (by rw [hlen]; exact hi) (by rw [hlen]; exact hi)]
    unfold overlapEntry
    rw [if_pos rfl, hcolD i hi]
  · intro i j hi hj hne
    rw [Mget_matrix t year _ i j (by rw [hlen]; exact hi) (by rw [hlen]; exact hj)]
    unfold overlapEntry
    rw [if_neg hne, if_pos ⟨by rw [hcolD i hi]; exact hmemD i hi,
      by rw [hcolD j hj]; exact hmemD j hj⟩, hcolD i hi, hcolD j hj]
  · intro i j
    by_cases hi : i < labels.length
    · by_cases hj : j < labels.length
      · rw [Mget_matrix t year _ i j (by rw [hlen]; exact hi) (by rw [hlen]; exact hj),
          Mget_matrix t year _ j i (by rw [hlen]; exact hj) (by rw [hlen]; exact hi)]
        unfold overlapEntry
        by_cases hij : i = j
        · subst hij
          rfl
        · have hji : ¬(j = i) := fun h => hij h.symm
          rw [if_neg hij, if_neg hji]
          by_cases hc : colLabel year ((meetingsNames labels).getD i "") ∈ t.cols ∧
              colLabel year ((meetingsNames labels).getD j "") ∈ t.cols
          · have hc2 : colLabel year ((meetingsNames labels).getD j "") ∈ t.cols ∧
                colLabel year ((meetingsNames labels).getD i "") ∈ t.cols := ⟨hc.2, hc.1⟩
            rw [if_pos hc, if_pos hc2, countBoth_comm]
          · have hc2 : ¬(colLabel year ((meetingsNames labels).getD j "") ∈ t.cols ∧
                colLabel year ((meetingsNames labels).getD i "") ∈ t.cols) :=
              fun h => hc ⟨h.2, h.1⟩
            rw [if_neg hc, if_neg hc2]
      · rw [Mget_matrix_oob t year _ i j (Or.inr (by rw [hlen]; omega)),
          Mget_matrix_oob t year _ j i (Or.inl (by rw [hlen]; omega))]
    · rw [Mget_matrix_oob t year _ i j (Or.inl (by rw [hlen]; omega)),
        Mget_matrix_oob t year _ j i (Or.inr (by rw [hlen]; omega))]

/-- C3 witness: the spec's scenario with year-prefixed labels.  The
matrix has diagonal `[2, 2]`, both co-attendance entries `1`, and is
symmetric. -/
theorem generateChordDiagram_overlapMatrix_witness :
    ∃ M, generateChordDiagram tChord [s2024A, s2024B] s2024 = Except.ok M ∧
      Mget M 0 0 = 2 ∧ Mget M 1 1 = 2 ∧ Mget M 0 1 = 1 ∧ Mget M 1 0 = Mget M 0 1 := by
  obtain ⟨M, hM, hdiag, hoff, hsym⟩ :=
    generateChordDiagram_overlapMatrix tChord [s2024A, s2024B] s2024 (by decide) (by decide)
  refine ⟨M, hM, ?_, ?_, ?_, hsym 1 0⟩
  · rw [hdiag 0 (by decide)]
    decide
  · rw [hdiag 1 (by decide)]
    decide
  · rw [hoff 0 1 (by decide) (by decide) (by decide)]
    decide

/-- C6 (code bug): a missing column is fatal when it indexes a diagonal
entry.  `"2024 B"` is a well-formed selected meeting absent from the
table; the off-diagonal pairs are guarded (parse.py line 203), but the
diagonal access `attendance[column_i].sum()` on line 199 is not, so the
whole computation aborts with the pandas `KeyError` instead of skipping
the pair with a warning. -/
theorem generateChordDiagram_missingColumn_fatal :
    strContains s2024B cSpace = true ∧
    generateChordDiagram tMissing [s2024A, s2024B] s2024 =
      Except.error (PyError.keyErrorColumn s2024B) := by
  exact ⟨by decide, by decide⟩

/-- C10: `generateChordDiagram` silently drops every selected meeting
without a space before computing anything (the result is identical to
the result on the pre-filtered list); on success the matrix is square
with dimension the number of space-containing labels in original order,
and the diagonal of row `i` counts the column rebuilt as the year
prefix joined to the text after the label's first space. -/
theorem generateChordDiagram_dropsSpaceless (t : Table) (sel : List String) (year : String) :
    generateChordDiagram t sel year =
      generateChordDiagram t (sel.filter (fun m => strContains m cSpace)) year ∧
    (∀ M, generateChordDiagram t sel year = Except.ok M →
      M.length = (sel.filter (fun m => strContains m cSpace)).length ∧
      (∀ row ∈ M, row.length = (sel.filter (fun m => strContains m cSpace)).length) ∧
      (∀ i, i < M.length → Mget M i i = countTrue t (colLabel year
        (afterFirstSpace ((sel.filter (fun m => strContains m cSpace)).getD i ""))))) := by
  have hmn : meetingsNames (sel.filter (fun m => strContains m cSpace)) = meetingsNames sel := by
    unfold meetingsNames
    congr 1
    rw [List.filter_eq_self.mpr]
    intro a ha
    exact (List.mem_filter.mp ha).2
  have hlen2 : (meetingsNames sel).length =
      (sel.filter (fun m => strContains m cSpace)).length := by
    unfold meetingsNames
    rw [List.length_map]
  constructor
  · unfold generateChordDiagram
    rw [hmn]
  · intro M hM
    obtain ⟨hcols, hMeq⟩ := generateChordDiagram_ok t sel year M hM
    have hlenM : M.length = (meetingsNames sel).length := by
      rw [hMeq]
      simp
    refine ⟨by rw [hlenM, hlen2], ?_, ?_⟩
    · intro row hrow
      rw [hMeq] at hrow
      obtain ⟨a, ha, hroweq⟩ := List.mem_map.mp hrow
      rw [← hroweq, List.length_map, List.length_range, hlen2]
    · intro i hi
      have hib : i < (meetingsNames sel).length := by
        rw [← hlenM]
        exact hi
      rw [hMeq, Mget_matrix t year _ i i hib hib]
      unfold overlapEntry
      rw [if_pos rfl]
      have hnd : (meetingsNames sel).getD i "" =
          afterFirstSpace ((sel.filter (fun m => strContains m cSpace)).getD i "") := by
        unfold meetingsNames
        exact getD_map_in _ _ _ (by rw [← hlen2]; exact hib)
      rw [hnd]

/-- C10 witness: with selected meetings `["2024 A", "PLENARY"]` the
spaceless label is dropped: the computation coincides with the one on
`["2024 A"]`, the matrix is `[[2]]` of dimension 1 (not 2, the input
length), and the diagonal counts the rebuilt column "2024 A". -/
theorem generateChordDiagram_dropsSpaceless_witness :
    generateChordDiagram tC10 [s2024A, sNoSpace] s2024 =
      generateChordDiagram tC10 ([s2024A, sNoSpace].filter (fun m => strContains m cSpace))
        s2024 ∧
    ([s2024A, sNoSpace].filter (fun m => strContains m cSpace) = [s2024A]) ∧
    generateChordDiagram tC10 [s2024A, sNoSpace] s2024 = Except.ok [[2]] ∧
    ([[2]] : List (List Nat)).length = 1 ∧
    (1 : Nat) ≠ ([s2024A, sNoSpace] : List String).length ∧
    Mget [[2]] 0 0 = countTrue tC10 (colLabel s2024 (afterFirstSpace s2024A)) := by
  have h := generateChordDiagram_dropsSpaceless tC10 [s2024A, sNoSpace] s2024
  refine ⟨h.1, by decide, by decide, by decide, by decide, ?_⟩
  have h2 := (h.2 [[2]] (by decide)).2.2 0 (by decide)
  have hf : ([s2024A, sNoSpace].filter (fun m => strContains m cSpace)).getD 0 "" =
      s2024A := by decide
  rw [hf] at h2
  exact h2

/-! Machinery for the percentage normalization. -/

/-- `getD` through a `map` at an in-bounds position (general form). -/
theorem getD_map_poly {α β : Type} (f : α → β) (l : List α) (i : Nat) (da : α) (db : β)
    (hi : i < l.length) : (l.map f).getD i db = f (l.getD i da) := by
  have hx : l[i]? = some l[i] := List.getElem?_eq_getElem hi
  rw [List.getD_eq_getElem?_getD, List.getElem?_map, hx, List.getD_eq_getElem?_getD, hx]
  rfl

/-- Inversion of a successful normalization: every row's divisor (its
diagonal entry, at offset `i0` plus the row position) is non-zero, and
each output row is the input row mapped through `x / d * 100`. -/
theorem normRows_some :
    ∀ (rows : List (List Nat)) (i0 : Nat) (N : List (List ℚ)),
      normRows rows i0 = some N →
      N.length = rows.length ∧
      ∀ p, p < rows.length →
        (rows.getD p []).getD (i0 + p) 0 ≠ 0 ∧
        N.getD p [] = (rows.getD p []).map
          (fun x : Nat => (x : ℚ) / (((rows.getD p []).getD (i0 + p) 0 : Nat) : ℚ) * 100) := by
  intro rows
  induction rows with
  | nil =>
    intro i0 N h
    simp only [normRows] at h
    have hN : N = [] := (Option.some.inj h).symm
    subst hN
    refine ⟨rfl, ?_⟩
    intro p hp
    simp at hp
  | cons row rest ih =>
    intro i0 N h
    simp only [normRows] at h
    cases hr : normalizeRow row (row.getD i0 0) with
    | none =>
      simp only [hr] at h
      exact Option.noConfusion h
    | some r =>
      cases hrs : normRows rest (i0 + 1) with
      | none =>
        simp only [hr, hrs] at h
        exact Option.noConfusion h
      | some rs =>
        simp only [hr, hrs] at h
        have hN : N = r :: rs := (Option.some.inj h).symm
        subst hN
        obtain ⟨hlen, hall⟩ := ih (i0 + 1) rs hrs
        have hd : row.getD i0 0 ≠ 0 := by
          intro h0
          rw [normalizeRow, if_pos h0] at hr
          exact Option.noConfusion hr
        have hrval : r = row.map
            (fun x : Nat => (x : ℚ) / ((row.getD i0 0 : Nat) : ℚ) * 100) := by
          rw [normalizeRow, if_neg hd] at hr
          exact (Option.some.inj hr).symm
        refine ⟨by simp [hlen], ?_⟩
        intro p hp
        cases p with
        | zero =>
          refine ⟨by simpa using hd, ?_⟩
          simpa using hrval
        | succ q =>
          have hq := hall q (by simpa using Nat.lt_of_succ_lt_succ hp)
          have hidx : i0 + (q + 1) = (i0 + 1) + q := by omega
          refine ⟨?_, ?_⟩
          · have h1 := hq.1
            simpa [hidx] using h1
          · have h2 := hq.2
            simpa [hidx] using h2

/-- C5 amended: whenever the overlap matrix is produced and every row's
self-count is non-zero (so that the normalization of parse.py lines
293-295 has a defined value at all), every percentage cell lies in
`[0, 100]` and every diagonal cell is exactly `100`.  (Rows with a zero
self-count are not guarded by the source: the division has no defined
percentage value — `normalizeMatrix` is `none` — where numpy emits
inf/NaN with a runtime warning.) -/
theorem overlapNormalize_bounds (t : Table) (sel : List String) (year : String)
    (M : List (List Nat)) (N : List (List ℚ))
    (hM : generateChordDiagram t sel year = Except.ok M)
    (hN : normalizeMatrix M = some N) :
    (∀ i j, i < M.length → j < M.length → 0 ≤ Qget N i j ∧ Qget N i j ≤ 100) ∧
    (∀ i, i < M.length → Qget N i i = 100) := by
  obtain ⟨hcols, hMeq⟩ := generateChordDiagram_ok t sel year M hM
  obtain ⟨hNlen, hall⟩ := normRows_some M 0 N hN
  have hMlen : M.length = (meetingsNames sel).length := by
    rw [hMeq]
    simp
  have hrow : ∀ i, i < M.length → M.getD i [] =
      (List.range (meetingsNames sel).length).map
        (fun j => overlapEntry t year (meetingsNames sel) i j) := by
    intro i hi
    rw [hMeq]
    exact getD_range_map _ _ _ _ (by rw [← hMlen]; exact hi)
  have hentry : ∀ i j, i < M.length → j < M.length →
      (M.getD i []).getD j 0 = overlapEntry t year (meetingsNames sel) i j := by
    intro i j hi hj
    rw [hrow i hi]
    exact getD_range_map _ _ _ _ (by rw [← hMlen]; exact hj)
  have hle : ∀ i j, overlapEntry t year (meetingsNames sel) i j ≤
      overlapEntry t year (meetingsNames sel) i i := by
    intro i j
    by_cases hij : i = j
    · subst hij
      exact Nat.le_refl _
    · unfold overlapEntry
      rw [if_neg hij, if_pos rfl]
      by_cases hc : colLabel year ((meetingsNames sel).getD i "") ∈ t.cols ∧
          colLabel year ((meetingsNames sel).getD j "") ∈ t.cols
      · rw [if_pos hc]
        exact countBoth_le_countTrue t _ _
      · rw [if_neg hc]
        exact Nat.zero_le _
  have hdval : ∀ i, i < M.length → (M.getD i []).getD (0 + i) 0 =
      overlapEntry t year (meetingsNames sel) i i := by
    intro i hi
    rw [Nat.zero_add]
    exact hentry i i hi hi
  have hQ : ∀ i j, i < M.length → j < M.length →
      Qget N i j = ((overlapEntry t year (meetingsNames sel) i j : ℚ) /
        ((overlapEntry t year (meetingsNames sel) i i : Nat) : ℚ)) * 100 := by
    intro i j hi hj
    have hp := hall i hi
    unfold Qget
    rw [hp.2]
    have hjlen : j < (M.getD i []).length := by
      rw [hrow i hi, List.length_map, List.length_range, ← hMlen]
      exact hj
    rw [getD_map_poly _ _ _ 0 _ hjlen, hentry i j hi hj, hdval i hi]
  have hdpos : ∀ i, i < M.length →
      (0 : ℚ) < ((overlapEntry t year (meetingsNames sel) i i : Nat) : ℚ) := by
    intro i hi
    have hp := hall i hi
    have hne := hp.1
    rw [hdval i hi] at hne
    exact_mod_cast Nat.pos_of_ne_zero hne
  constructor
  · intro i j hi hj
    rw [hQ i j hi hj]
    constructor
    · apply mul_nonneg
      · apply div_nonneg
        · exact_mod_cast Nat.zero_le _
        · exact le_of_lt (hdpos i hi)
      · norm_num
    · have h1 : ((overlapEntry t year (meetingsNames sel) i j : Nat) : ℚ) /
          ((overlapEntry t year (meetingsNames sel) i i : Nat) : ℚ) ≤ 1 := by
        rw [div_le_one (hdpos i hi)]
        exact_mod_cast hle i j
      calc ((overlapEntry t year (meetingsNames sel) i j : Nat) : ℚ) /
          ((overlapEntry t year (meetingsNames sel) i i : Nat) : ℚ) * 100
          ≤ 1 * 100 := by
            apply mul_le_mul_of_nonneg_right h1
            norm_num
        _ = 100 := by norm_num
  · intro i hi
    rw [hQ i i hi hi, div_self (ne_of_gt (hdpos i hi))]
    norm_num

/-- C5 amended witness: the scenario matrix `[[2,1],[1,2]]` normalizes
to `[[100,50],[50,100]]`; the diagonal is 100 and the off-diagonal cell
lies in `[0, 100]`. -/
theorem overlapNormalize_bounds_witness :
    generateChordDiagram tChord [s2024A, s2024B] s2024 = Except.ok [[2, 1], [1, 2]] ∧
    normalizeMatrix [[2, 1], [1, 2]] = some [[100, 50], [50, 100]] ∧
    Qget [[(100 : ℚ), 50], [50, 100]] 0 0 = 100 ∧
    (0 ≤ Qget [[(100 : ℚ), 50], [50, 100]] 0 1 ∧
      Qget [[(100 : ℚ), 50], [50, 100]] 0 1 ≤ 100) := by
  have hM : generateChordDiagram tChord [s2024A, s2024B] s2024 =
      Except.ok [[2, 1], [1, 2]] := by decide
  have hN : normalizeMatrix [[2, 1], [1, 2]] = some [[100, 50], [50, 100]] := by
    simp [normalizeMatrix, normRows, normalizeRow]
    norm_num
  have h := overlapNormalize_bounds tChord [s2024A, s2024B] s2024 [[2, 1], [1, 2]]
    [[100, 50], [50, 100]] hM hN
  exact ⟨hM, hN, h.2 0 (by norm_num), h.1 0 1 (by norm_num) (by norm_num)⟩

/-- C5 counterexample: the source has no division guard.  On the table
where meeting "2024 A" has zero attendees, the overlap matrix is
`[[0]]` with a zero self-count, and the normalization of parse.py lines
293-295 has no defined value at all (numpy: `0/0` is NaN with a runtime
warning) — the row does not resolve to the claimed 0%. -/
theorem normalizeGuard_counterexample :
    generateChordDiagram tZero [s2024A] s2024 = Except.ok [[0]] ∧
    normalizeMatrix [[0]] = none ∧
    (∀ N, normalizeMatrix [[0]] ≠ some N) := by
  have hzero : normalizeMatrix [[0]] = none := by
    simp [normalizeMatrix, normRows, normalizeRow]
  refine ⟨by decide, hzero, ?_⟩
  intro N h
  rw [hzero] at h
  exact Option.noConfusion h
